import Mathlib

/-!
Verification of the identifier / address derivation core of go-xpx-chain-sdk

Shallow embedding of the deterministic derivation subsystem:
`sdk/namespace_model.go` (namespace ids, namespace paths, alias addresses)
and `sdk/account_model.go` (address parsing, pretty printing, checksum).

Modelling conventions:
* Go `uint64` values are `Nat` with explicit `% 2 ^ 64` / `< 2 ^ 64` bounds
  where overflow matters; Go `byte` values are `Nat` (always `< 256` as a
  hypothesis where it matters); Go byte slices are `List Nat`.
* Go strings are `List Char`; the sources only ever slice address strings
  containing ASCII (base32 alphabet), where one Go byte is one `Char`.
* Fallible Go functions return `Except SdkError`; a Go runtime panic
  (out-of-range index or slice) is modelled as `Option.none` around
  the result.
* SHA3-256 comes from an external crypto provider (spec §6 treats it as a
  black-box pure function); it is an explicit function argument `sha3`.
* Go's `base32.StdEncoding` and `encoding/hex` are embedded byte-for-byte
  from the standard algorithm (RFC 4648 with `=` padding, newline
  stripping, Go's quantum-by-quantum decoder); `CorruptInputError`
  positions are abstracted to the single constructor `corruptInput`.
-/

/-- Error values of the sdk package that are relevant to the derivation
core (`ErrInvalidNamespaceName`, `ErrNamespaceTooManyPart`,
`ErrWrongBitNamespaceId`, `ErrInvalidAddress`), plus the error classes of
the standard library codecs (`base32.CorruptInputError` collapsed to
`corruptInput`, `encoding/hex` errors collapsed to `hexError`). -/
inductive SdkError where
  | invalidNamespaceName
  | namespaceTooManyPart
  | wrongBitNamespaceId
  | invalidAddress
  | corruptInput
  | hexError
  deriving DecidableEq, Repr

instance {ε α : Type} [DecidableEq ε] [DecidableEq α] : DecidableEq (Except ε α) := fun
  | .error e, .error f =>
    if h : e = f then .isTrue (by rw [h]) else .isFalse (by intro hc; cases hc; exact h rfl)
  | .ok a, .ok b =>
    if h : a = b then .isTrue (by rw [h]) else .isFalse (by intro hc; cases hc; exact h rfl)
  | .error _, .ok _ => .isFalse (by intro hc; cases hc)
  | .ok _, .error _ => .isFalse (by intro hc; cases hc)

/-- Modelled from the spec: the network-type tags (spec §3, §6).  The
provided sources fix only the alias-address tag (`AliasAddress`, version
byte `0x91`, `sdk/namespace_model.go:271`); the remaining members of the
static table are external configuration not given in the sources. -/
inductive NetworkType where
  | AliasAddress
  deriving DecidableEq, Repr

/-- Modelled from the spec: the static version-byte → network-type table
`addressNet` (spec §4.3 step 2, §6: "a small static table").  The sources
document only the alias entry `0x91 = 145`. -/
def addressNet (b : Nat) : Option NetworkType :=
  if b = 145 then some NetworkType.AliasAddress else none

/-- Modelled from the spec: the `AliasAddress` network-type constant,
value `0x91` (comment in `sdk/namespace_model.go:271` and spec §4.3). -/
def AliasAddress : Nat := 145

/-- Go source: `type Address struct { Type NetworkType; Address string }`
(`sdk/account_model.go:107`); the Go field `Type` is `netType` here
(`Type` is reserved in Lean). -/
structure Address where
  netType : NetworkType
  Address : List Char
  deriving DecidableEq, Repr

/-- ASCII upper-casing of one character, the effect of Go's
`strings.ToUpper` on the ASCII strings handled here. -/
def toUpperGo (c : Char) : Char :=
  if 'a' ≤ c ∧ c ≤ 'z' then Char.ofNat (c.toNat - 32) else c

/-- Go source: `func NewAddress(address string, networkType NetworkType) *Address`
(`sdk/account_model.go:197`): strip every `-`, upper-case, wrap. -/
def NewAddress (address : List Char) (networkType : NetworkType) : Address :=
  { netType := networkType
    Address := (address.filter (fun c => c != '-')).map toUpperGo }

/-- Go source: `type NamespaceId struct { baseInt64 }` (`sdk/namespace_model.go:19`);
the embedded 64-bit value (`Id()` returns `uint64(m.baseInt64)`) is the
field `id`. -/
structure NamespaceId where
  id : Nat
  deriving DecidableEq, Repr

/-- Go source: `const NamespaceBit uint64 = 1 << 63` (`sdk/namespace_model.go:17`). -/
def NamespaceBit : Nat := 1 <<< 63

/-- Modelled from the spec: the bit-test helper `hasBits` used by
`NewNamespaceId` is not among the provided sources; per spec §3 it tests
that every bit of `bits` is set in `number`. -/
def hasBits (number bits : Nat) : Bool :=
  number &&& bits == bits

/-- Go source: `func NewNamespaceIdNoCheck(id uint64) *NamespaceId`
(`sdk/namespace_model.go:31`). -/
def NewNamespaceIdNoCheck (id : Nat) : NamespaceId := ⟨id⟩

/-- Go source: `func NewNamespaceId(id uint64) (*NamespaceId, error)`
(`sdk/namespace_model.go:23`): reject a nonzero id without the
namespace bit. -/
def NewNamespaceId (id : Nat) : Except SdkError NamespaceId :=
  if id ≠ 0 ∧ ¬ hasBits id NamespaceBit then .error .wrongBitNamespaceId
  else .ok (NewNamespaceIdNoCheck id)

/-- Go source: `binary.LittleEndian.PutUint64`: the 8 little-endian bytes of a
64-bit value. -/
def toLE8 (x : Nat) : List Nat :=
  [x % 256, x / 2 ^ 8 % 256, x / 2 ^ 16 % 256, x / 2 ^ 24 % 256,
   x / 2 ^ 32 % 256, x / 2 ^ 40 % 256, x / 2 ^ 48 % 256, x / 2 ^ 56 % 256]

/-- Go source: `binary.LittleEndian.Uint64` over the first eight bytes of a buffer
(each byte already `< 256` in Go; enforced here with `% 256`). -/
def leUint64 (b : List Nat) : Nat :=
  b.getD 0 0 % 256 + b.getD 1 0 % 256 * 2 ^ 8 + b.getD 2 0 % 256 * 2 ^ 16 +
  b.getD 3 0 % 256 * 2 ^ 24 + b.getD 4 0 % 256 * 2 ^ 32 + b.getD 5 0 % 256 * 2 ^ 40 +
  b.getD 6 0 % 256 * 2 ^ 48 + b.getD 7 0 % 256 * 2 ^ 56

/-- Modelled from the spec: the namespace-name grammar `regValidNamespace`
(spec §4.2: "non-empty, ASCII alphanumeric plus a small set of punctuation
(`_`, `-`), first character not a disallowed symbol").  ASCII alphanumeric,
by code point: `a`-`z` is 97-122, `A`-`Z` is 65-90, `0`-`9` is 48-57. -/
def nsNameChar (c : Char) : Bool :=
  (97 ≤ c.toNat && c.toNat ≤ 122) || (65 ≤ c.toNat && c.toNat ≤ 90) ||
    (48 ≤ c.toNat && c.toNat ≤ 57)

/-- Modelled from the spec: `regValidNamespace.MatchString` over a name
segment; see `nsNameChar`. -/
def regValidNamespace : List Char → Bool
  | [] => false
  | c :: rest => nsNameChar c && rest.all (fun d => nsNameChar d || d = '_' || d = '-')

/-- Modelled from the spec: `generateNamespaceId(name, parentId)`
(spec §4.2 `deriveId`): concatenate the 8-byte little-endian encoding of
the parent id with the UTF-8 bytes of the segment name (segments are
ASCII by the grammar, so one char is one byte), hash with the external
SHA3-256 `sha3`, read the first 8 digest bytes as a little-endian 64-bit
integer, and force bit 63 (`NamespaceBit`). -/
def generateNamespaceId (sha3 : List Nat → List Nat) (name : List Char)
    (parent : NamespaceId) : NamespaceId :=
  ⟨leUint64 ((sha3 (toLE8 parent.id ++ name.map Char.toNat)).take 8) ||| NamespaceBit⟩

/-- Go's `strings.Split(name, ".")` (single-character separator):
always returns at least one part; `""` splits to `[""]`. -/
def splitDot : List Char → List (List Char)
  | [] => [[]]
  | c :: cs =>
    if c = '.' then [] :: splitDot cs
    else
      match splitDot cs with
      | t :: ts => (c :: t) :: ts
      | [] => [[c]]

/-- The `for _, part := range parts` loop body of `GenerateNamespacePath`
(`sdk/namespace_model.go:255`): validate each segment, derive, append. -/
def genPathLoop (sha3 : List Nat → List Nat) :
    List (List Char) → NamespaceId → List NamespaceId → Except SdkError (List NamespaceId)
  | [], _, path => .ok path
  | part :: rest, parent, path =>
    if regValidNamespace part = false then .error .invalidNamespaceName
    else
      let nid := generateNamespaceId sha3 part parent
      genPathLoop sha3 rest nid (path ++ [nid])

/-- Go source: `func GenerateNamespacePath(name string) ([]*NamespaceId, error)`
(`sdk/namespace_model.go:238`), parameterised by the external SHA3-256. -/
def GenerateNamespacePath (sha3 : List Nat → List Nat) (name : List Char) :
    Except SdkError (List NamespaceId) :=
  let parts := splitDot name
  if parts.length = 0 then .error .invalidNamespaceName
  else if 3 < parts.length then .error .namespaceTooManyPart
  else genPathLoop sha3 parts (NewNamespaceIdNoCheck 0) []

/-- The chain of identifiers derived left-to-right from a starting
parent: specification-side description of the loop of
`GenerateNamespacePath`, used to relate the returned list to `deriveId`. -/
def nsChain (sha3 : List Nat → List Nat) (parent : NamespaceId) :
    List (List Char) → List NamespaceId
  | [] => []
  | p :: ps =>
    generateNamespaceId sha3 p parent ::
      nsChain sha3 (generateNamespaceId sha3 p parent) ps

lemma nsChain_length (sha3 : List Nat → List Nat) :
    ∀ (ps : List (List Char)) (parent : NamespaceId),
      (nsChain sha3 parent ps).length = ps.length := by
  intro ps
  induction ps with
  | nil => intro parent; rfl
  | cons p ps ih => intro parent; simpa [nsChain] using ih _

lemma genPathLoop_ok (sha3 : List Nat → List Nat) :
    ∀ (ps : List (List Char)) (parent : NamespaceId) (acc path : List NamespaceId),
      genPathLoop sha3 ps parent acc = .ok path → path = acc ++ nsChain sha3 parent ps := by
  intro ps
  induction ps with
  | nil =>
    intro parent acc path h
    simp only [genPathLoop] at h
    cases h
    simp [nsChain]
  | cons p ps ih =>
    intro parent acc path h
    simp only [genPathLoop] at h
    by_cases hv : regValidNamespace p = false
    · rw [if_pos hv] at h; cases h
    · rw [if_neg hv] at h
      have := ih _ _ _ h
      simp [nsChain, this]

lemma nsChain_getD (sha3 : List Nat → List Nat) :
    ∀ (ps : List (List Char)) (parent : NamespaceId) (i : Nat), i < ps.length →
      (nsChain sha3 parent ps).getD i ⟨0⟩ =
        generateNamespaceId sha3 (ps.getD i [])
          (if i = 0 then parent else (nsChain sha3 parent ps).getD (i - 1) ⟨0⟩) := by
  intro ps
  induction ps with
  | nil => intro parent i hi; simp at hi
  | cons p ps ih =>
    intro parent i hi
    match i with
    | 0 => simp [nsChain]
    | j + 1 =>
      have hj : j < ps.length := by simpa using hi
      have := ih (generateNamespaceId sha3 p parent) j hj
      match j with
      | 0 => simpa [nsChain] using this
      | k + 1 => simpa [nsChain] using this

/-- C1: For every name accepted by `GenerateNamespacePath`, the returned
list has exactly one `NamespaceId` per dot-separated segment, in segment
order, and forms a hash chain: element 0 is
`generateNamespaceId(segment 0, sentinel 0)` and element `i` (for
`i ≥ 1`) is `generateNamespaceId(segment i, element (i-1))`. -/
theorem generateNamespacePath_hash_chain (sha3 : List Nat → List Nat)
    (name : List Char) (path : List NamespaceId)
    (h : GenerateNamespacePath sha3 name = .ok path) :
    path.length = (splitDot name).length ∧
    ∀ i, i < path.length →
      path.getD i ⟨0⟩ =
        generateNamespaceId sha3 ((splitDot name).getD i [])
          (if i = 0 then ⟨0⟩ else path.getD (i - 1) ⟨0⟩) := by
  unfold GenerateNamespacePath at h
  by_cases h0 : (splitDot name).length = 0
  · rw [if_pos h0] at h; cases h
  · rw [if_neg h0] at h
    by_cases h3 : 3 < (splitDot name).length
    · rw [if_pos h3] at h; cases h
    · rw [if_neg h3] at h
      have hpath := genPathLoop_ok sha3 _ _ _ _ h
      simp only [List.nil_append] at hpath
      subst hpath
      refine ⟨nsChain_length sha3 _ _, ?_⟩
      intro i hi
      rw [nsChain_length sha3 _ _] at hi
      exact nsChain_getD sha3 _ (NewNamespaceIdNoCheck 0) i hi

/-- Witness for C1 at the concrete name `"a.b"` and a concrete stand-in
digest function: the hypothesis of `generateNamespacePath_hash_chain`
evaluates by `decide` and its conclusion is checked at that input. -/
theorem generateNamespacePath_hash_chain_witness :
    [NamespaceId.mk (2 ^ 63), NamespaceId.mk (2 ^ 63)].length =
        (splitDot ('a' :: '.' :: ['b'])).length ∧
    ∀ i, i < [NamespaceId.mk (2 ^ 63), NamespaceId.mk (2 ^ 63)].length →
      [NamespaceId.mk (2 ^ 63), NamespaceId.mk (2 ^ 63)].getD i ⟨0⟩ =
        generateNamespaceId (fun _ => []) ((splitDot ('a' :: '.' :: ['b'])).getD i [])
          (if i = 0 then ⟨0⟩
           else [NamespaceId.mk (2 ^ 63), NamespaceId.mk (2 ^ 63)].getD (i - 1) ⟨0⟩) :=
  generateNamespacePath_hash_chain (fun _ => []) ('a' :: '.' :: ['b'])
    [⟨2 ^ 63⟩, ⟨2 ^ 63⟩] (by decide)

/-- C7: `GenerateNamespacePath` fails on `""` and `"."` with
`ErrInvalidNamespaceName`, and on every name with more than 3
dot-separated segments (such as `"a.b.c.d"`) with
`ErrNamespaceTooManyPart`, for any digest function. -/
theorem generateNamespacePath_rejects (sha3 : List Nat → List Nat) :
    GenerateNamespacePath sha3 [] = .error .invalidNamespaceName ∧
    GenerateNamespacePath sha3 ['.'] = .error .invalidNamespaceName ∧
    ∀ name : List Char, 3 < (splitDot name).length →
      GenerateNamespacePath sha3 name = .error .namespaceTooManyPart := by
  refine ⟨rfl, rfl, ?_⟩
  intro name h
  unfold GenerateNamespacePath
  rw [if_neg (by omega), if_pos h]

/-- Witness for C7's universal part at the 4-segment name `"a.b.c.d"`
(and a concrete stand-in digest function, which the error path never
invokes). -/
theorem generateNamespacePath_rejects_witness :
    GenerateNamespacePath (fun _ => []) ('a' :: '.' :: 'b' :: '.' :: 'c' :: '.' :: ['d']) =
      .error .namespaceTooManyPart :=
  (generateNamespacePath_rejects (fun _ => [])).2.2
    ('a' :: '.' :: 'b' :: '.' :: 'c' :: '.' :: ['d']) (by decide)

/-- C2: `NewNamespaceId id` returns `ErrWrongBitNamespaceId` exactly when
`id` is nonzero with bit 63 clear; for every `id` with bit 63 set and for
`id = 0` it succeeds, and the constructed value's embedded id equals the
input. -/
theorem newNamespaceId_bit63 (id : Nat) (h : id < 2 ^ 64) :
    (NewNamespaceId id = .error .wrongBitNamespaceId ↔
      (id ≠ 0 ∧ id.testBit 63 = false)) ∧
    ((id.testBit 63 = true ∨ id = 0) →
      NewNamespaceId id = .ok ⟨id⟩ ∧ (NamespaceId.mk id).id = id) := by
  have hbit : hasBits id NamespaceBit = id.testBit 63 := by
    have hpow : NamespaceBit = 2 ^ 63 := by
      simp [NamespaceBit, Nat.shiftLeft_eq]
    simp only [hasBits, hpow, Nat.and_two_pow]
    cases hb : id.testBit 63 with
    | false => simp
    | true => simp
  constructor
  · constructor
    · intro he
      unfold NewNamespaceId at he
      by_cases hc : id ≠ 0 ∧ ¬ hasBits id NamespaceBit
      · refine ⟨hc.1, ?_⟩
        have := hc.2
        rw [hbit] at this
        simpa using this
      · rw [if_neg hc] at he; cases he
    · intro ⟨hne, hb⟩
      unfold NewNamespaceId
      rw [if_pos ⟨hne, by rw [hbit, hb]; simp⟩]
  · intro hcase
    refine ⟨?_, rfl⟩
    unfold NewNamespaceId
    rw [if_neg ?_]
    · rfl
    · intro ⟨hne, hnb⟩
      rw [hbit] at hnb
      rcases hcase with hb | hz
      · rw [hb] at hnb; exact hnb rfl
      · exact hne hz

/-- Witness for C2 at `id = 2 ^ 63` (bit 63 set): construction succeeds
and preserves the value. -/
theorem newNamespaceId_bit63_witness :
    NewNamespaceId (2 ^ 63) = .ok ⟨2 ^ 63⟩ ∧ (NamespaceId.mk (2 ^ 63)).id = 2 ^ 63 :=
  (newNamespaceId_bit63 (2 ^ 63) (by norm_num)).2 (Or.inl (by decide))

/-! Section: The `encoding/hex` codec (Go standard library, used by the source) -/

/-- The lower-case hex digit for a nibble, entry `d` of the
`encoding/hex` encode table `0123456789abcdef` (code point 48 is `0`,
87 + 10 is `a`). -/
def hexDigitL (d : Nat) : Char :=
  if d < 10 then Char.ofNat (48 + d) else Char.ofNat (87 + d)

/-- Go source: `hex.EncodeToString`: two lower-case digits per byte. -/
def hexEncode : List Nat → List Char
  | [] => []
  | b :: rest => hexDigitL (b / 16) :: hexDigitL (b % 16) :: hexEncode rest

/-- Go's `fromHexChar`: digit value of an ASCII hex character
(`0-9`, `a-f`, `A-F`). -/
def fromHexChar (c : Char) : Option Nat :=
  if '0' ≤ c ∧ c ≤ '9' then some (c.toNat - '0'.toNat)
  else if 'a' ≤ c ∧ c ≤ 'f' then some (c.toNat - 'a'.toNat + 10)
  else if 'A' ≤ c ∧ c ≤ 'F' then some (c.toNat - 'A'.toNat + 10)
  else none

/-- Go source: `hex.DecodeString`: pairs of hex characters to bytes; odd length or
an invalid character is an error (Go's `ErrLength` /
`InvalidByteError`, collapsed to `hexError`). -/
def hexDecode : List Char → Except SdkError (List Nat)
  | [] => .ok []
  | [_] => .error .hexError
  | a :: b :: rest =>
    match fromHexChar a, fromHexChar b with
    | some x, some y =>
      match hexDecode rest with
      | .ok tl => .ok ((x * 16 + y) :: tl)
      | .error e => .error e
    | _, _ => .error .hexError

/-! Section: The `encoding/base32` std codec (Go standard library, used by the
source).  `base32.StdEncoding`: RFC 4648 alphabet, `=` padding; Go's
`DecodeString` strips `\r`/`\n` first and then decodes 8-character
quantums; `CorruptInputError` is collapsed to `corruptInput`. -/

/-- The standard base32 alphabet `ABCDEFGHIJKLMNOPQRSTUVWXYZ234567`. -/
def stdAlphabet : List Char :=
  ['A', 'B', 'C', 'D', 'E', 'F', 'G', 'H', 'I', 'J', 'K', 'L', 'M',
   'N', 'O', 'P', 'Q', 'R', 'S', 'T', 'U', 'V', 'W', 'X', 'Y', 'Z',
   '2', '3', '4', '5', '6', '7']

/-- Character for a 5-bit value: Go writes `enc.encode[b & 31]`. -/
def alphaChar (d : Nat) : Char := stdAlphabet.getD (d % 32) 'A'

def decodeMapAux (c : Char) : List Char → Nat → Nat
  | [], _ => 255
  | a :: rest, i => if a = c then i else decodeMapAux c rest (i + 1)

/-- Go's `decodeMap`: index of a character in the alphabet, `255` (the
invalid marker `0xFF`) if absent. -/
def decodeMap (c : Char) : Nat := decodeMapAux c stdAlphabet 0

/-- One quantum of Go's `Encoding.decode` inner loop: read up to 8
alphabet characters into `acc` (Go's `dbuf`), handling `=` padding
exactly as Go does (padding recognised only from position `j ≥ 2` with
fewer than 8 characters left; missing, short or misplaced padding and
the unreachable data lengths 1, 3, 6 are `CorruptInputError`).  Returns
the collected 5-bit values, the unconsumed input and Go's `end` flag. -/
def readQuantum : List Char → List Nat → Except SdkError (List Nat × List Char × Bool)
  | [], acc =>
    if acc.length = 8 then .ok (acc, [], false)
    else .error .corruptInput
  | c :: rest, acc =>
    if acc.length = 8 then .ok (acc, c :: rest, false)
    else if c = '=' ∧ 2 ≤ acc.length ∧ rest.length < 8 then
      if rest.length + acc.length < 7 then .error .corruptInput
      else if (rest.take (7 - acc.length)).any (fun d => d != '=') then .error .corruptInput
      else if acc.length = 1 ∨ acc.length = 3 ∨ acc.length = 6 then .error .corruptInput
      else .ok (acc, rest, true)
    else if decodeMap c = 255 then .error .corruptInput
    else readQuantum rest (acc ++ [decodeMap c])

/-- Go's pack step, the `switch dlen` with fallthrough: 5-bit values of
one quantum to bytes, the listed cases `dlen ∈ {2,4,5,7,8}` yielding
1,2,3,4,5 bytes (an unlisted `dlen` matches no case and emits nothing);
shifts and ors of Go's byte arithmetic written as `*`, `/`, `%` — the
ored bit ranges are disjoint and `% 256` is the byte truncation. -/
def packBytes (d : List Nat) : List Nat :=
  match d with
  | [d0, d1] => [(d0 * 8 + d1 / 4) % 256]
  | [d0, d1, d2, d3] =>
    [(d0 * 8 + d1 / 4) % 256, (d1 * 64 + d2 * 2 + d3 / 16) % 256]
  | [d0, d1, d2, d3, d4] =>
    [(d0 * 8 + d1 / 4) % 256, (d1 * 64 + d2 * 2 + d3 / 16) % 256,
     (d3 * 16 + d4 / 2) % 256]
  | [d0, d1, d2, d3, d4, d5, d6] =>
    [(d0 * 8 + d1 / 4) % 256, (d1 * 64 + d2 * 2 + d3 / 16) % 256,
     (d3 * 16 + d4 / 2) % 256, (d4 * 128 + d5 * 4 + d6 / 8) % 256]
  | [d0, d1, d2, d3, d4, d5, d6, d7] =>
    [(d0 * 8 + d1 / 4) % 256, (d1 * 64 + d2 * 2 + d3 / 16) % 256,
     (d3 * 16 + d4 / 2) % 256, (d4 * 128 + d5 * 4 + d6 / 8) % 256,
     (d6 * 32 + d7) % 256]
  | _ => []

/-- Go's outer decode loop, structurally recursive on a fuel that the
wrapper `base32decode` sets to the input length (each non-final quantum
consumes exactly 8 characters, so the fuel never runs out; the fuel-zero
branch is unreachable). -/
def decodeLoop : Nat → List Char → Except SdkError (List Nat)
  | _, [] => .ok []
  | 0, _ :: _ => .error .corruptInput
  | fuel + 1, c :: rest =>
    match readQuantum (c :: rest) [] with
    | .error e => .error e
    | .ok (dbuf, _, true) => .ok (packBytes dbuf)
    | .ok (dbuf, remaining, false) =>
      match decodeLoop fuel remaining with
      | .error e => .error e
      | .ok tl => .ok (packBytes dbuf ++ tl)

/-- Go source: `base32.StdEncoding.DecodeString`: strip `\r` and `\n`
(Go's `stripNewlines`), then decode quantum by quantum. -/
def base32decode (s : List Char) : Except SdkError (List Nat) :=
  decodeLoop (s.filter (fun c => c != '\r' && c != '\n')).length
    (s.filter (fun c => c != '\r' && c != '\n'))

/-- Go's per-group encode values `b[0] .. b[7]` (the `switch len(src)`
with fallthrough, missing source bytes read as 0); shifts, ors and the
`& 0x1F` masks written as `*`, `/`, `%` over disjoint bit ranges. -/
def enc5 (s : List Nat) : List Nat :=
  let b := fun i => s.getD i 0
  [b 0 / 8,
   (b 0 * 4 + b 1 / 64) % 32,
   b 1 / 2 % 32,
   (b 1 * 16 + b 2 / 16) % 32,
   (b 2 * 2 + b 3 / 128) % 32,
   b 3 / 4 % 32,
   (b 3 * 8 + b 4 / 32) % 32,
   b 4 % 32]

/-- Encoding of one group of 1–5 bytes, by the group's length as in
Go's `switch len(src)`: 2, 4, 5, 7 or 8 data characters, padded with
`=` to 8 (no padding for a full 5-byte group). -/
def encGroup (g : List Nat) : List Char :=
  match g with
  | [] => []
  | [_] => ((enc5 g).take 2).map alphaChar ++ List.replicate 6 '='
  | [_, _] => ((enc5 g).take 4).map alphaChar ++ List.replicate 4 '='
  | [_, _, _] => ((enc5 g).take 5).map alphaChar ++ List.replicate 3 '='
  | [_, _, _, _] => ((enc5 g).take 7).map alphaChar ++ List.replicate 1 '='
  | _ => (enc5 g).map alphaChar

/-- Go source: `base32.StdEncoding.EncodeToString`: 5-byte groups, final partial
group padded. -/
def base32encode : List Nat → List Char
  | [] => []
  | b0 :: b1 :: b2 :: b3 :: b4 :: rest =>
    encGroup [b0, b1, b2, b3, b4] ++ base32encode rest
  | g => encGroup g

/-! Section: Address parsing and printing (`sdk/account_model.go`) -/

/-- Go source: `func NewAddressFromRaw(address string) (*Address, error)`
(`sdk/account_model.go:203`): base32-decode, then read the first decoded
byte `pH[0]` — with no emptiness check, so an input decoding to zero
bytes hits an out-of-range index (modelled as `none`) — and look it up
in `addressNet`.  No length validation is performed. -/
def NewAddressFromRaw (address : List Char) : Option (Except SdkError Address) :=
  match base32decode address with
  | .error e => some (.error e)
  | .ok [] => none
  | .ok (b :: _) =>
    match addressNet b with
    | some nType => some (.ok (NewAddress address nType))
    | none => some (.error .invalidAddress)

/-- Go source: `func NewAddressFromEncoded(encoded string) (*Address, error)`
(`sdk/account_model.go:226`): hex-decode, base32-encode, parse. -/
def NewAddressFromEncoded (encoded : List Char) : Option (Except SdkError Address) :=
  match hexDecode encoded with
  | .error e => some (.error e)
  | .ok pH => NewAddressFromRaw (base32encode pH)

/-- Go source: `func (ad *Address) Pretty() string` (`sdk/account_model.go:120`):
six 6-character blocks each followed by `-`, then the last 4 characters.
Go's slicing `Address[i*6 : i*6+6]` panics when the string is shorter
than 36 characters (modelled as `none`). -/
def prettyChars (l : List Char) : Option (List Char) :=
  if l.length < 36 then none
  else some
    ((l.drop 0).take 6 ++ '-' :: ((l.drop 6).take 6 ++ '-' :: ((l.drop 12).take 6 ++ '-' ::
      ((l.drop 18).take 6 ++ '-' :: ((l.drop 24).take 6 ++ '-' :: ((l.drop 30).take 6 ++ '-' ::
        l.drop (l.length - 4)))))))

def AddressPretty (a : Address) : Option (List Char) := prettyChars a.Address

/-- Modelled from the spec: the external crypto provider's
`crypto.HashesSha3_256` (spec §6: SHA3-256 as a black-box pure
function), represented by the function argument `sha3`; the Go signature
also carries an error that a pure digest never produces. -/
def HashesSha3_256 (sha3 : List Nat → List Nat) (b : List Nat) :
    Except SdkError (List Nat) := .ok (sha3 b)

/-- Go source: `const NUM_CHECKSUM_BYTES = 4` (`sdk/account_model.go:255`). -/
def NUM_CHECKSUM_BYTES : Nat := 4

/-- Go source: `func GenerateChecksum(b []byte) ([]byte, error)`
(`sdk/account_model.go:257`): SHA3-256 the buffer, return the first 4
bytes.  Go's slice `hash[:4]` panics when the digest is shorter than 4
bytes (modelled as `none`); a 32-byte digest never does. -/
def GenerateChecksum (sha3 : List Nat → List Nat) (b : List Nat) :
    Option (Except SdkError (List Nat)) :=
  match HashesSha3_256 sha3 b with
  | .error e => some (.error e)
  | .ok h =>
    if NUM_CHECKSUM_BYTES ≤ h.length then some (.ok (h.take NUM_CHECKSUM_BYTES))
    else none

/-! Section: Alias addresses (`sdk/namespace_model.go:270`) -/

/-- Entry `d` of the upper-case hex digit table `0123456789ABCDEF`
(code point 55 + 10 is `A`). -/
def hexDigitU (d : Nat) : Char :=
  if d < 10 then Char.ofNat (48 + d) else Char.ofNat (55 + d)

/-- The upper-case hex rendering `fmt.Sprintf("%X", int(AliasAddress))`
of the one-byte alias tag (`0x91` formats as `"91"`). -/
def hexUpper2 (n : Nat) : List Char :=
  [hexDigitU (n / 16 % 16), hexDigitU (n % 16)]

/-- The hex string built by `NewAddressFromNamespace`
(`sdk/namespace_model.go:272`): `"91"`, then the 8 little-endian bytes of
the namespace id in lower-case hex, then `strings.Repeat("00", 16)`. -/
def aliasHex (n : NamespaceId) : List Char :=
  hexUpper2 AliasAddress ++ hexEncode (toLE8 n.id) ++ (List.replicate 16 ['0', '0']).flatten

/-- Modelled from the spec: `NewAddressFromBase32` is called by the
provided sources (`sdk/namespace_model.go:144,280`) but defined outside
them; per spec §4.3 (and exactly like `NewAddressFromEncoded` in the
provided `sdk/account_model.go`) it hex-decodes the encoded form,
base32-encodes the bytes and parses the resulting text. -/
def NewAddressFromBase32 (encoded : List Char) : Option (Except SdkError Address) :=
  match hexDecode encoded with
  | .error e => some (.error e)
  | .ok pH => NewAddressFromRaw (base32encode pH)

/-- Go source: `func NewAddressFromNamespace(namespaceId *NamespaceId) (*Address, error)`
(`sdk/namespace_model.go:270`). -/
def NewAddressFromNamespace (namespaceId : NamespaceId) : Option (Except SdkError Address) :=
  NewAddressFromBase32 (aliasHex namespaceId)

/-- The 25-byte alias-address payload: version tag `0x91`, 8 little-endian
id bytes, 16 zero bytes. -/
def aliasPayload (n : NamespaceId) : List Nat :=
  145 :: (toLE8 n.id ++ List.replicate 16 0)

/-- The 40-character canonical text of the alias address of the sentinel
payload `91 00 … 00`: a concrete well-formed address used as a test
vector. -/
def canonical40 : List Char := 'S' :: 'E' :: List.replicate 38 'A'

/-- The dash-grouped pretty form of `canonical40`. -/
def pretty46 : List Char :=
  ('S' :: 'E' :: List.replicate 4 'A') ++ '-' :: (List.replicate 6 'A' ++ '-' ::
    (List.replicate 6 'A' ++ '-' :: (List.replicate 6 'A' ++ '-' ::
      (List.replicate 6 'A' ++ '-' :: (List.replicate 6 'A' ++ '-' ::
        List.replicate 4 'A')))))

/-! Section: Claims about address parsing -/

/-- C10: `NewAddressFromRaw` reads `pH[0]` without checking that the
decoded buffer is non-empty: every input whose base32 decoding is the
empty byte string drives the index access out of bounds (a runtime
panic, `none` here) instead of returning an error. -/
theorem newAddressFromRaw_empty_decode_panics (address : List Char)
    (h : base32decode address = .ok []) :
    NewAddressFromRaw address = none := by
  unfold NewAddressFromRaw
  rw [h]

/-- Witness for C10 at the empty input string, which base32-decodes to
zero bytes. -/
theorem newAddressFromRaw_empty_decode_panics_witness :
    NewAddressFromRaw [] = none :=
  newAddressFromRaw_empty_decode_panics [] (by decide)

/-- Counterexample to C4 as stated: `"SEAAAAAA"` base32-decodes without
error to the 5-byte buffer `[0x91, 0, 0, 0, 0]` — a length that is wrong
for the 25-byte address format — yet `NewAddressFromRaw` succeeds,
because the code never checks the decoded length. -/
theorem newAddressFromRaw_wrong_length_accepted :
    NewAddressFromRaw ['S', 'E', 'A', 'A', 'A', 'A', 'A', 'A'] =
      some (.ok ⟨.AliasAddress, ['S', 'E', 'A', 'A', 'A', 'A', 'A', 'A']⟩) ∧
    base32decode ['S', 'E', 'A', 'A', 'A', 'A', 'A', 'A'] = .ok [145, 0, 0, 0, 0] ∧
    ([145, 0, 0, 0, 0] : List Nat).length ≠ 25 := by
  refine ⟨?_, by decide, by decide⟩
  decide

/-- C4 (amended): `NewAddressFromRaw` fails exactly when the text fails
to base32-decode (propagating the decode error), or — with
`ErrInvalidAddress` — when the (non-empty) decoded buffer's leading byte
is absent from `addressNet`; no decoded-length validation is performed,
so it succeeds on every text whose decoding is non-empty with a known
leading byte, whatever the decoded length. -/
theorem newAddressFromRaw_cases (address : List Char) :
    (∀ e, base32decode address = .error e → NewAddressFromRaw address = some (.error e)) ∧
    (∀ b bs, base32decode address = .ok (b :: bs) → addressNet b = none →
      NewAddressFromRaw address = some (.error .invalidAddress)) ∧
    (∀ b bs t, base32decode address = .ok (b :: bs) → addressNet b = some t →
      NewAddressFromRaw address = some (.ok (NewAddress address t))) := by
  refine ⟨?_, ?_, ?_⟩
  · intro e he
    unfold NewAddressFromRaw
    rw [he]
  · intro b bs hd hn
    simp [NewAddressFromRaw, hd, hn]
  · intro b bs t hd ht
    simp [NewAddressFromRaw, hd, ht]

/-- Witness for C4 (amended) on three concrete inputs: a non-base32
text, a decodable text with an unknown leading byte, and a decodable
text with the alias leading byte (which succeeds although it decodes to
5 bytes, not 25). -/
theorem newAddressFromRaw_cases_witness :
    NewAddressFromRaw ['0'] = some (.error .corruptInput) ∧
    NewAddressFromRaw ['A', 'A', 'A', 'A', 'A', 'A', 'A', 'A'] =
      some (.error .invalidAddress) ∧
    NewAddressFromRaw ['S', 'E', 'A', 'A', 'A', 'A', 'A', 'A'] =
      some (.ok (NewAddress ['S', 'E', 'A', 'A', 'A', 'A', 'A', 'A'] .AliasAddress)) :=
  ⟨(newAddressFromRaw_cases ['0']).1 .corruptInput (by decide),
   (newAddressFromRaw_cases ['A', 'A', 'A', 'A', 'A', 'A', 'A', 'A']).2.1
     0 [0, 0, 0, 0] (by decide) (by decide),
   (newAddressFromRaw_cases ['S', 'E', 'A', 'A', 'A', 'A', 'A', 'A']).2.2
     145 [0, 0, 0, 0] .AliasAddress (by decide) (by decide)⟩

/-- C6: `GenerateChecksum` succeeds on every byte buffer — the empty one
included, with no special case — returning exactly the first 4 bytes of
the SHA3-256 digest, whenever the digest function honours its 32-byte
output contract. -/
theorem generateChecksum_first4 (sha3 : List Nat → List Nat)
    (hdig : ∀ x, (sha3 x).length = 32) (b : List Nat) :
    GenerateChecksum sha3 b = some (.ok ((sha3 b).take 4)) ∧
    ((sha3 b).take 4).length = 4 := by
  constructor
  · simp [GenerateChecksum, HashesSha3_256, NUM_CHECKSUM_BYTES, hdig b]
  · rw [List.length_take, hdig b]; decide

/-- Witness for C6 at a concrete 32-byte digest function and the empty
buffer. -/
theorem generateChecksum_first4_witness :
    GenerateChecksum (fun _ => List.replicate 32 7) [] =
      some (.ok [7, 7, 7, 7]) ∧ ([7, 7, 7, 7] : List Nat).length = 4 :=
  generateChecksum_first4 (fun _ => List.replicate 32 7)
    (fun x => by rw [List.length_replicate]) []

/-! Section: Normalisation and pretty-printing -/

lemma map_upper_stable : ∀ (s : List Char), (∀ c ∈ s, toUpperGo c = c) →
    s.map toUpperGo = s := by
  intro s
  induction s with
  | nil => intro _; rfl
  | cons c cs ih =>
    intro h
    rw [List.map_cons, h c (by simp), ih (fun d hd => h d (by simp [hd]))]

lemma normalize_stable (s : List Char) (h : ∀ c ∈ s, c ≠ '-' ∧ toUpperGo c = c) :
    (s.filter (fun c => c != '-')).map toUpperGo = s := by
  have hf : s.filter (fun c => c != '-') = s :=
    List.filter_eq_self.mpr (fun c hc => by simpa using (h c hc).1)
  rw [hf]
  exact map_upper_stable s (fun c hc => (h c hc).2)

lemma take_chunk (xs : List Char) (a : Nat) :
    (xs.drop a).take 6 ++ xs.drop (a + 6) = xs.drop a := by
  have hd : xs.drop (a + 6) = (xs.drop a).drop 6 := by
    rw [List.drop_drop, Nat.add_comm]
  rw [hd, List.take_append_drop]

/-- C8: for an `Address` whose text is the canonical 40-character,
dash-free, upper-case form, pretty-printing and then normalising as
`NewAddress` does (strip dashes, upper-case) reproduces the original
text exactly. -/
theorem pretty_strip_upper_roundtrip (l : List Char) (t : NetworkType) (p : List Char)
    (hlen : l.length = 40)
    (hchars : ∀ c ∈ l, c ≠ '-' ∧ toUpperGo c = c)
    (hp : prettyChars l = some p) :
    NewAddress p t = ⟨t, l⟩ := by
  have h36 : ¬ l.length < 36 := by omega
  unfold prettyChars at hp
  rw [if_neg h36] at hp
  have hpe := Option.some.inj hp
  have hmem : ∀ a : Nat, ∀ c ∈ (l.drop a).take 6, c ≠ '-' ∧ toUpperGo c = c :=
    fun a c hc => hchars c (List.drop_subset a l (List.take_subset 6 _ hc))
  have hmemT : ∀ c ∈ l.drop (l.length - 4), c ≠ '-' ∧ toUpperGo c = c :=
    fun c hc => hchars c (List.drop_subset _ l hc)
  show Address.mk t _ = Address.mk t l
  refine congrArg (Address.mk t) ?_
  rw [← hpe]
  simp only [List.filter_append, List.filter_cons, List.map_append,
    show (('-' != '-') = false) from rfl, Bool.false_eq_true, if_false]
  rw [normalize_stable _ (hmem 0), normalize_stable _ (hmem 6),
    normalize_stable _ (hmem 12), normalize_stable _ (hmem 18),
    normalize_stable _ (hmem 24), normalize_stable _ (hmem 30),
    normalize_stable _ hmemT]
  have hl4 : l.length - 4 = 36 := by omega
  rw [hl4]
  have t30 := take_chunk l 30
  have t24 := take_chunk l 24
  have t18 := take_chunk l 18
  have t12 := take_chunk l 12
  have t6 := take_chunk l 6
  norm_num at t30 t24 t18 t12 t6
  rw [t30, t24, t18, t12, t6]
  rw [List.drop_zero, List.take_append_drop]

/-- Witness for C8 at the concrete canonical address `canonical40`. -/
theorem pretty_strip_upper_roundtrip_witness :
    NewAddress pretty46 .AliasAddress = ⟨.AliasAddress, canonical40⟩ :=
  pretty_strip_upper_roundtrip canonical40 .AliasAddress pretty46
    (by decide) (by decide) (by decide)

/-- A `-` among the characters a decode quantum is about to read (with
at least 8 characters after the dash, so no padding branch can trigger
first) makes Go's quantum reader fail: `-` is outside the alphabet and
`decodeMap` yields the invalid marker. -/
lemma readQuantum_hits_dash : ∀ (pre rest : List Char) (acc : List Nat),
    pre.length + acc.length ≤ 7 → 8 ≤ rest.length →
    readQuantum (pre ++ '-' :: rest) acc = .error .corruptInput := by
  intro pre
  induction pre with
  | nil =>
    intro rest acc h7 h8
    have hacc : ¬ acc.length = 8 := by simp at h7; omega
    show readQuantum ('-' :: rest) acc = _
    unfold readQuantum
    rw [if_neg hacc, if_neg (by rintro ⟨hq, -, -⟩; cases hq), if_pos (by decide)]
  | cons c pre ih =>
    intro rest acc h7 h8
    have hacc : ¬ acc.length = 8 := by simp at h7; omega
    show readQuantum (c :: (pre ++ '-' :: rest)) acc = _
    unfold readQuantum
    rw [if_neg hacc, if_neg ?_]
    · by_cases hdm : decodeMap c = 255
      · rw [if_pos hdm]
      · rw [if_neg hdm]
        exact ih rest (acc ++ [decodeMap c]) (by simp at h7 ⊢; omega) h8
    · rintro ⟨-, -, hlt⟩
      simp [List.length_append] at hlt
      omega

/-- Parsing the dash-grouped pretty form of any 40-character address
text always fails in the base32 decode step: the `-` inserted at
position 6 is read inside the first quantum. -/
lemma pretty_parse_fails (l p : List Char) (hlen : l.length = 40)
    (hnl : ∀ c ∈ l, c ≠ '\r' ∧ c ≠ '\n') (hp : prettyChars l = some p) :
    NewAddressFromRaw p = some (.error .corruptInput) := by
  have h36 : ¬ l.length < 36 := by omega
  unfold prettyChars at hp
  rw [if_neg h36] at hp
  have hpe := Option.some.inj hp
  have hmem : ∀ c ∈ p, c ≠ '\r' ∧ c ≠ '\n' := by
    intro c hc
    rw [← hpe] at hc
    simp only [List.mem_append, List.mem_cons] at hc
    have hblock : ∀ a : Nat, c ∈ (l.drop a).take 6 → c ≠ '\r' ∧ c ≠ '\n' :=
      fun a h => hnl c (List.drop_subset a l (List.take_subset 6 _ h))
    rcases hc with h | h | h | h | h | h | h | h | h | h | h | h | h
    · exact hblock 0 h
    · subst h; exact ⟨by decide, by decide⟩
    · exact hblock 6 h
    · subst h; exact ⟨by decide, by decide⟩
    · exact hblock 12 h
    · subst h; exact ⟨by decide, by decide⟩
    · exact hblock 18 h
    · subst h; exact ⟨by decide, by decide⟩
    · exact hblock 24 h
    · subst h; exact ⟨by decide, by decide⟩
    · exact hblock 30 h
    · subst h; exact ⟨by decide, by decide⟩
    · exact hnl c (List.drop_subset _ l h)
  have hfil : p.filter (fun c => c != '\r' && c != '\n') = p :=
    List.filter_eq_self.mpr (fun c hc => by
      have := hmem c hc
      simp [this.1, this.2])
  have hple : p.length = 46 := by
    rw [← hpe]
    simp [List.length_append, List.length_take, List.length_drop, hlen]
  obtain ⟨c0, l', hl⟩ : ∃ c0 l', l = c0 :: l' := by
    cases l with
    | nil => simp at hlen
    | cons a as => exact ⟨a, as, rfl⟩
  have hshape : p = c0 :: (l'.take 5 ++ '-' :: ((l.drop 6).take 6 ++ '-' ::
      ((l.drop 12).take 6 ++ '-' :: ((l.drop 18).take 6 ++ '-' ::
        ((l.drop 24).take 6 ++ '-' :: ((l.drop 30).take 6 ++ '-' ::
          l.drop (l.length - 4))))))) := by
    rw [← hpe, hl]
    simp
  have hrest8 : 8 ≤ ((l.drop 6).take 6 ++ '-' :: ((l.drop 12).take 6 ++ '-' ::
      ((l.drop 18).take 6 ++ '-' :: ((l.drop 24).take 6 ++ '-' ::
        ((l.drop 30).take 6 ++ '-' :: l.drop (l.length - 4)))))).length := by
    simp [List.length_append, List.length_take, List.length_drop, hlen]
  have hq : readQuantum p [] = .error .corruptInput := by
    rw [hshape]
    have := readQuantum_hits_dash (c0 :: l'.take 5)
      (((l.drop 6).take 6 ++ '-' :: ((l.drop 12).take 6 ++ '-' ::
        ((l.drop 18).take 6 ++ '-' :: ((l.drop 24).take 6 ++ '-' ::
          ((l.drop 30).take 6 ++ '-' :: l.drop (l.length - 4))))))) []
      (by
        have : l'.length = 39 := by
          have := hlen
          rw [hl] at this
          simpa using this
        simp [List.length_take, this])
      hrest8
    simpa using this
  unfold NewAddressFromRaw base32decode
  rw [hfil, hple]
  have h46 : (46 : Nat) = 45 + 1 := rfl
  rw [h46]
  obtain ⟨d0, dtl, hd⟩ : ∃ d0 dtl, p = d0 :: dtl := by
    cases p with
    | nil => simp at hple
    | cons a as => exact ⟨a, as, rfl⟩
  rw [hd] at hq ⊢
  simp [decodeLoop, hq]

/-- C5 (amended): normalisation (dash stripping, upper-casing) lives in
`NewAddress`, which runs only after the base32 decode, so it applies to
the stored `Address` value of every successful parse — but
`NewAddressFromRaw` decodes the input text as given, so the dash-grouped
pretty form of a (40-character) address is always rejected by the decode
step; raw and pretty forms are not accepted interchangeably. -/
theorem address_text_normalization (l : List Char) :
    (∀ r, NewAddressFromRaw l = some (.ok r) →
      r.Address = (l.filter (fun c => c != '-')).map toUpperGo) ∧
    (∀ p, l.length = 40 → (∀ c ∈ l, c ≠ '\r' ∧ c ≠ '\n') →
      prettyChars l = some p →
      NewAddressFromRaw p = some (.error .corruptInput)) := by
  constructor
  · intro r hr
    unfold NewAddressFromRaw at hr
    cases hdec : base32decode l with
    | error e => rw [hdec] at hr; cases hr
    | ok bs =>
      rw [hdec] at hr
      cases bs with
      | nil => cases hr
      | cons b btl =>
        cases hnet : addressNet b with
        | none => simp [hnet] at hr
        | some t =>
          simp [hnet] at hr
          rw [← hr]
          rfl
  · intro p hlen hnl hp
    exact pretty_parse_fails l p hlen hnl hp

/-- Counterexample to C5 as stated: `pretty46` is exactly the pretty
form of the valid canonical address text `canonical40` (normalising it
reproduces `canonical40`), the raw form parses successfully, yet
`NewAddressFromRaw` rejects the pretty form with a base32 corrupt-input
error — the two forms are not interchangeable. -/
theorem pretty_raw_not_interchangeable :
    NewAddressFromRaw canonical40 = some (.ok ⟨.AliasAddress, canonical40⟩) ∧
    prettyChars canonical40 = some pretty46 ∧
    NewAddressFromRaw pretty46 = some (.error .corruptInput) ∧
    (pretty46.filter (fun c => c != '-')).map toUpperGo = canonical40 := by
  exact ⟨by decide, by decide, by decide, by decide⟩

/-- Witness for C5 (amended) at the concrete address `canonical40` and
its pretty form `pretty46`. -/
theorem address_text_normalization_witness :
    (Address.mk .AliasAddress canonical40).Address =
      (canonical40.filter (fun c => c != '-')).map toUpperGo ∧
    NewAddressFromRaw pretty46 = some (.error .corruptInput) :=
  ⟨(address_text_normalization canonical40).1 ⟨.AliasAddress, canonical40⟩ (by decide),
   (address_text_normalization canonical40).2 pretty46 (by decide) (by decide) (by decide)⟩

/-! Round-trip properties of the base32 codec, needed for the alias
address claims. -/

lemma decodeMap_alphaChar : ∀ d : Fin 32, decodeMap (alphaChar d.val) = d.val := by decide

lemma alphaChar_ne_pad : ∀ d : Fin 32, alphaChar d.val ≠ '=' := by decide

lemma alphaChar_clean : ∀ d : Fin 32,
    alphaChar d.val ≠ '-' ∧ toUpperGo (alphaChar d.val) = alphaChar d.val ∧
    alphaChar d.val ≠ '\r' ∧ alphaChar d.val ≠ '\n' := by decide

lemma readQuantum_step (c : Char) (src : List Char) (acc : List Nat)
    (hlen : acc.length < 8) (hpad : c ≠ '=') (hc : decodeMap c ≠ 255) :
    readQuantum (c :: src) acc = readQuantum src (acc ++ [decodeMap c]) := by
  conv_lhs => rw [readQuantum]
  rw [if_neg (by omega), if_neg (by rintro ⟨h, -, -⟩; exact hpad h), if_neg hc]

lemma readQuantum_digits : ∀ (ds : List Nat) (src : List Char) (acc : List Nat),
    (∀ d ∈ ds, d < 32) → acc.length + ds.length = 8 →
    readQuantum (ds.map alphaChar ++ src) acc = .ok (acc ++ ds, src, false) := by
  intro ds
  induction ds with
  | nil =>
    intro src acc _ hlen
    simp only [List.length_nil, Nat.add_zero] at hlen
    cases src with
    | nil => simp [readQuantum, hlen]
    | cons c rest => simp [readQuantum, hlen]
  | cons d ds ih =>
    intro src acc hd hlen
    have hd32 : d < 32 := hd d (by simp)
    have hmap : decodeMap (alphaChar d) = d := decodeMap_alphaChar ⟨d, hd32⟩
    rw [List.map_cons, List.cons_append,
      readQuantum_step _ _ _ (by simp at hlen ⊢; omega)
        (alphaChar_ne_pad ⟨d, hd32⟩) (by rw [hmap]; omega), hmap]
    have := ih src (acc ++ [d]) (fun x hx => hd x (by simp [hx]))
      (by simp at hlen ⊢; omega)
    rw [this]
    simp

lemma enc5_eq (b0 b1 b2 b3 b4 : Nat) :
    enc5 [b0, b1, b2, b3, b4] =
      [b0 / 8, (b0 * 4 + b1 / 64) % 32, b1 / 2 % 32, (b1 * 16 + b2 / 16) % 32,
       (b2 * 2 + b3 / 128) % 32, b3 / 4 % 32, (b3 * 8 + b4 / 32) % 32, b4 % 32] := rfl

lemma enc5_lt (b0 b1 b2 b3 b4 : Nat) (h0 : b0 < 256) :
    ∀ d ∈ enc5 [b0, b1, b2, b3, b4], d < 32 := by
  intro d hd
  rw [enc5_eq] at hd
  simp only [List.mem_cons, List.not_mem_nil, or_false] at hd
  rcases hd with rfl | rfl | rfl | rfl | rfl | rfl | rfl | rfl <;> omega

lemma packBytes_enc5 (b0 b1 b2 b3 b4 : Nat)
    (h0 : b0 < 256) (h1 : b1 < 256) (h2 : b2 < 256) (h3 : b3 < 256) (h4 : b4 < 256) :
    packBytes (enc5 [b0, b1, b2, b3, b4]) = [b0, b1, b2, b3, b4] := by
  show [(b0 / 8 * 8 + (b0 * 4 + b1 / 64) % 32 / 4) % 256,
        ((b0 * 4 + b1 / 64) % 32 * 64 + b1 / 2 % 32 * 2 + (b1 * 16 + b2 / 16) % 32 / 16) % 256,
        ((b1 * 16 + b2 / 16) % 32 * 16 + (b2 * 2 + b3 / 128) % 32 / 2) % 256,
        ((b2 * 2 + b3 / 128) % 32 * 128 + b3 / 4 % 32 * 4 + (b3 * 8 + b4 / 32) % 32 / 8) % 256,
        ((b3 * 8 + b4 / 32) % 32 * 32 + b4 % 32) % 256] = [b0, b1, b2, b3, b4]
  simp only [List.cons.injEq, and_true]
  omega

lemma encGroup_full (b0 b1 b2 b3 b4 : Nat) :
    encGroup [b0, b1, b2, b3, b4] = (enc5 [b0, b1, b2, b3, b4]).map alphaChar := rfl

lemma decodeLoop_cons_eq (f : Nat) (src : List Char) (hne : src ≠ []) :
    decodeLoop (f + 1) src =
      match readQuantum src [] with
      | .error e => .error e
      | .ok (dbuf, _, true) => .ok (packBytes dbuf)
      | .ok (dbuf, remaining, false) =>
        match decodeLoop f remaining with
        | .error e => .error e
        | .ok tl => .ok (packBytes dbuf ++ tl) := by
  match src with
  | [] => exact absurd rfl hne
  | c :: rest => rfl

lemma decodeLoop_encode : ∀ (fuel : Nat) (l : List Nat),
    (∀ b ∈ l, b < 256) → l.length % 5 = 0 → l.length / 5 ≤ fuel →
    decodeLoop fuel (base32encode l) = .ok l := by
  intro fuel
  induction fuel with
  | zero =>
    intro l _ h5 hf
    have hl : l = [] := List.eq_nil_of_length_eq_zero (by omega)
    subst hl
    rfl
  | succ f ih =>
    intro l hb h5 hf
    match l with
    | [] => rfl
    | [b0] => simp at h5
    | [b0, b1] => simp at h5
    | [b0, b1, b2] => simp at h5
    | [b0, b1, b2, b3] => simp at h5
    | b0 :: b1 :: b2 :: b3 :: b4 :: rest =>
      have hb0 : b0 < 256 := hb b0 (by simp)
      have hb1 : b1 < 256 := hb b1 (by simp)
      have hb2 : b2 < 256 := hb b2 (by simp)
      have hb3 : b3 < 256 := hb b3 (by simp)
      have hb4 : b4 < 256 := hb b4 (by simp)
      have hbr : ∀ b ∈ rest, b < 256 := fun b hbm => hb b (by simp [hbm])
      have h5r : rest.length % 5 = 0 := by simp [List.length_cons] at h5 ⊢; omega
      have hfr : rest.length / 5 ≤ f := by simp [List.length_cons] at hf ⊢; omega
      have henc : base32encode (b0 :: b1 :: b2 :: b3 :: b4 :: rest) =
          (enc5 [b0, b1, b2, b3, b4]).map alphaChar ++ base32encode rest := rfl
      rw [henc]
      have hne : (enc5 [b0, b1, b2, b3, b4]).map alphaChar ++ base32encode rest ≠ [] := by
        intro hcontra
        have := congrArg List.length hcontra
        rw [enc5_eq] at this
        simp at this
      rw [decodeLoop_cons_eq f _ hne]
      have hq := readQuantum_digits (enc5 [b0, b1, b2, b3, b4]) (base32encode rest) []
        (enc5_lt b0 b1 b2 b3 b4 hb0) rfl
      simp only [List.nil_append] at hq
      rw [hq]
      have hrec := ih rest hbr h5r hfr
      simp only [hrec, packBytes_enc5 b0 b1 b2 b3 b4 hb0 hb1 hb2 hb3 hb4]
      rfl

lemma base32encode_mem : ∀ (n : Nat) (l : List Nat), l.length ≤ n →
    (∀ b ∈ l, b < 256) → l.length % 5 = 0 →
    ∀ c ∈ base32encode l, ∃ d : Fin 32, c = alphaChar d.val := by
  intro n
  induction n with
  | zero =>
    intro l hn _ _ c hc
    have hl : l = [] := List.eq_nil_of_length_eq_zero (by omega)
    subst hl
    simp [base32encode] at hc
  | succ m ih =>
    intro l hn hb h5 c hc
    match l with
    | [] => simp [base32encode] at hc
    | [b0] => simp at h5
    | [b0, b1] => simp at h5
    | [b0, b1, b2] => simp at h5
    | [b0, b1, b2, b3] => simp at h5
    | b0 :: b1 :: b2 :: b3 :: b4 :: rest =>
      have hb0 : b0 < 256 := hb b0 (by simp)
      have henc : base32encode (b0 :: b1 :: b2 :: b3 :: b4 :: rest) =
          (enc5 [b0, b1, b2, b3, b4]).map alphaChar ++ base32encode rest := rfl
      rw [henc] at hc
      rcases List.mem_append.mp hc with hcl | hcr
      · obtain ⟨d, hdmem, hdc⟩ := List.mem_map.mp hcl
        exact ⟨⟨d, enc5_lt b0 b1 b2 b3 b4 hb0 d hdmem⟩, hdc.symm⟩
      · exact ih rest (by simp at hn ⊢; omega) (fun b hbm => hb b (by simp [hbm]))
          (by simp [List.length_cons] at h5 ⊢; omega) c hcr

lemma base32encode_length : ∀ (n : Nat) (l : List Nat), l.length ≤ n →
    l.length % 5 = 0 → (base32encode l).length = l.length / 5 * 8 := by
  intro n
  induction n with
  | zero =>
    intro l hn _
    have hl : l = [] := List.eq_nil_of_length_eq_zero (by omega)
    subst hl
    rfl
  | succ m ih =>
    intro l hn h5
    match l with
    | [] => rfl
    | [b0] => simp at h5
    | [b0, b1] => simp at h5
    | [b0, b1, b2] => simp at h5
    | [b0, b1, b2, b3] => simp at h5
    | b0 :: b1 :: b2 :: b3 :: b4 :: rest =>
      have henc : base32encode (b0 :: b1 :: b2 :: b3 :: b4 :: rest) =
          (enc5 [b0, b1, b2, b3, b4]).map alphaChar ++ base32encode rest := rfl
      rw [henc]
      have := ih rest (by simp at hn ⊢; omega) (by simp [List.length_cons] at h5 ⊢; omega)
      rw [List.length_append, List.length_map, enc5_eq, this]
      simp [List.length_cons]
      omega

lemma base32decode_encode (l : List Nat) (hb : ∀ b ∈ l, b < 256) (h5 : l.length % 5 = 0) :
    base32decode (base32encode l) = .ok l := by
  have hclean : ∀ c ∈ base32encode l, (c != '\r' && c != '\n') = true := by
    intro c hc
    obtain ⟨d, rfl⟩ := base32encode_mem l.length l le_rfl hb h5 c hc
    have := alphaChar_clean d
    simp [this.2.2.1, this.2.2.2]
  have hfil : (base32encode l).filter (fun c => c != '\r' && c != '\n') = base32encode l :=
    List.filter_eq_self.mpr hclean
  unfold base32decode
  rw [hfil, base32encode_length l.length l le_rfl h5]
  exact decodeLoop_encode _ l hb h5 (by omega)

/-! Lemmas about the hex-built alias-address string. -/

lemma fromHexChar_hexDigitL : ∀ d : Fin 16, fromHexChar (hexDigitL d.val) = some d.val := by
  decide

lemma hexDecode_hexEncode_append : ∀ (bs : List Nat) (tl : List Char) (r : List Nat),
    (∀ b ∈ bs, b < 256) → hexDecode tl = .ok r →
    hexDecode (hexEncode bs ++ tl) = .ok (bs ++ r) := by
  intro bs
  induction bs with
  | nil => intro tl r _ h; simpa using h
  | cons b bs ih =>
    intro tl r hb h
    have hblt : b < 256 := hb b (by simp)
    have h1 : fromHexChar (hexDigitL (b / 16)) = some (b / 16) :=
      fromHexChar_hexDigitL ⟨b / 16, by omega⟩
    have h2 : fromHexChar (hexDigitL (b % 16)) = some (b % 16) :=
      fromHexChar_hexDigitL ⟨b % 16, by omega⟩
    have hrest := ih tl r (fun x hx => hb x (by simp [hx])) h
    rw [show hexEncode (b :: bs) ++ tl =
        hexDigitL (b / 16) :: hexDigitL (b % 16) :: (hexEncode bs ++ tl) from rfl]
    rw [show hexDecode (hexDigitL (b / 16) :: hexDigitL (b % 16) :: (hexEncode bs ++ tl)) =
        (match fromHexChar (hexDigitL (b / 16)), fromHexChar (hexDigitL (b % 16)) with
         | some x, some y =>
           (match hexDecode (hexEncode bs ++ tl) with
            | .ok tl2 => .ok ((x * 16 + y) :: tl2)
            | .error e => .error e)
         | _, _ => .error .hexError) from rfl]
    rw [h1, h2, hrest]
    have hbv : b / 16 * 16 + b % 16 = b := by omega
    simp [hbv]

lemma toLE8_lt (x : Nat) : ∀ b ∈ toLE8 x, b < 256 := by
  intro b hb
  simp only [toLE8, List.mem_cons, List.not_mem_nil, or_false] at hb
  rcases hb with rfl | rfl | rfl | rfl | rfl | rfl | rfl | rfl <;> omega

lemma aliasHex_decodes (n : NamespaceId) : hexDecode (aliasHex n) = .ok (aliasPayload n) := by
  have hrep : hexDecode ((List.replicate 16 ['0', '0']).flatten) =
      .ok (List.replicate 16 0) := by decide
  have happ := hexDecode_hexEncode_append (toLE8 n.id)
    ((List.replicate 16 ['0', '0']).flatten) (List.replicate 16 0) (toLE8_lt n.id) hrep
  rw [show aliasHex n =
      '9' :: '1' :: (hexEncode (toLE8 n.id) ++ (List.replicate 16 ['0', '0']).flatten) from rfl]
  rw [show hexDecode ('9' :: '1' ::
        (hexEncode (toLE8 n.id) ++ (List.replicate 16 ['0', '0']).flatten)) =
      (match fromHexChar '9', fromHexChar '1' with
       | some x, some y =>
         (match hexDecode (hexEncode (toLE8 n.id) ++ (List.replicate 16 ['0', '0']).flatten) with
          | .ok tl2 => .ok ((x * 16 + y) :: tl2)
          | .error e => .error e)
       | _, _ => .error .hexError) from rfl]
  rw [show fromHexChar '9' = some 9 from rfl, show fromHexChar '1' = some 1 from rfl, happ]
  rfl

lemma aliasPayload_lt (n : NamespaceId) : ∀ b ∈ aliasPayload n, b < 256 := by
  intro b hb
  simp only [aliasPayload, List.mem_cons, List.mem_append, List.mem_replicate] at hb
  rcases hb with rfl | hb | ⟨-, rfl⟩
  · omega
  · exact toLE8_lt n.id b hb
  · omega

lemma aliasPayload_len (n : NamespaceId) : (aliasPayload n).length = 25 := by
  simp [aliasPayload, toLE8]

lemma aliasPayload_inj (n1 n2 : NamespaceId) (h1 : n1.id < 2 ^ 64) (h2 : n2.id < 2 ^ 64)
    (h : aliasPayload n1 = aliasPayload n2) : n1.id = n2.id := by
  have hle : toLE8 n1.id = toLE8 n2.id := by
    have := h
    simp only [aliasPayload, List.cons.injEq, true_and] at this
    exact List.append_cancel_right this
  simp only [toLE8, List.cons.injEq, and_true] at hle
  omega

lemma newAddressFromNamespace_eq (n : NamespaceId) :
    NewAddressFromNamespace n =
      some (.ok ⟨.AliasAddress, base32encode (aliasPayload n)⟩) := by
  have hdec : base32decode (base32encode (aliasPayload n)) = .ok (aliasPayload n) :=
    base32decode_encode _ (aliasPayload_lt n) (by rw [aliasPayload_len])
  have hna : NewAddress (base32encode (aliasPayload n)) .AliasAddress =
      ⟨.AliasAddress, base32encode (aliasPayload n)⟩ := by
    unfold NewAddress
    have hstab : ((base32encode (aliasPayload n)).filter (fun c => c != '-')).map toUpperGo =
        base32encode (aliasPayload n) := by
      refine normalize_stable _ (fun c hc => ?_)
      obtain ⟨d, rfl⟩ := base32encode_mem (aliasPayload n).length _ le_rfl
        (aliasPayload_lt n) (by rw [aliasPayload_len]) c hc
      exact ⟨(alphaChar_clean d).1, (alphaChar_clean d).2.1⟩
    rw [hstab]
  unfold NewAddressFromNamespace NewAddressFromBase32
  rw [aliasHex_decodes n]
  show NewAddressFromRaw (base32encode (aliasPayload n)) =
    some (Except.ok (Address.mk NetworkType.AliasAddress (base32encode (aliasPayload n))))
  unfold NewAddressFromRaw
  rw [hdec]
  show some (Except.ok (NewAddress (base32encode (aliasPayload n)) NetworkType.AliasAddress)) =
    some (Except.ok (Address.mk NetworkType.AliasAddress (base32encode (aliasPayload n))))
  rw [hna]

/-- C3: `NewAddressFromNamespace n` builds exactly the 25-byte layout —
the fixed alias version tag `0x91`, the 8 little-endian bytes of the
namespace id, then 16 literal zero bytes (no checksum is computed or
appended over this form) — and parses the base32 encoding of exactly
those 25 bytes. -/
theorem newAddressFromNamespace_layout (n : NamespaceId) :
    hexDecode (aliasHex n) = .ok (145 :: (toLE8 n.id ++ List.replicate 16 0)) ∧
    (aliasPayload n).length = 25 ∧
    NewAddressFromNamespace n =
      some (.ok ⟨.AliasAddress, base32encode (145 :: (toLE8 n.id ++ List.replicate 16 0))⟩) :=
  ⟨aliasHex_decodes n, aliasPayload_len n, newAddressFromNamespace_eq n⟩

/-- C9: `NewAddressFromNamespace` is injective — distinct 64-bit
namespace id values give distinct 25-byte payloads and distinct address
texts — and every produced address text decodes back to a payload whose
leading byte is the fixed alias tag `0x91`. -/
theorem newAddressFromNamespace_injective (n1 n2 : NamespaceId)
    (h1 : n1.id < 2 ^ 64) (h2 : n2.id < 2 ^ 64) (hne : n1.id ≠ n2.id) :
    aliasPayload n1 ≠ aliasPayload n2 ∧
    ∃ a1 a2 : Address,
      NewAddressFromNamespace n1 = some (.ok a1) ∧
      NewAddressFromNamespace n2 = some (.ok a2) ∧
      a1.Address ≠ a2.Address ∧
      base32decode a1.Address = .ok (aliasPayload n1) ∧
      base32decode a2.Address = .ok (aliasPayload n2) ∧
      (aliasPayload n1).getD 0 0 = AliasAddress ∧
      (aliasPayload n2).getD 0 0 = AliasAddress := by
  have hpne : aliasPayload n1 ≠ aliasPayload n2 :=
    fun hc => hne (aliasPayload_inj n1 n2 h1 h2 hc)
  have hd1 : base32decode (base32encode (aliasPayload n1)) = .ok (aliasPayload n1) :=
    base32decode_encode _ (aliasPayload_lt n1) (by rw [aliasPayload_len])
  have hd2 : base32decode (base32encode (aliasPayload n2)) = .ok (aliasPayload n2) :=
    base32decode_encode _ (aliasPayload_lt n2) (by rw [aliasPayload_len])
  refine ⟨hpne, ⟨_, _, newAddressFromNamespace_eq n1, newAddressFromNamespace_eq n2,
    ?_, hd1, hd2, rfl, rfl⟩⟩
  intro hc
  have hc2 : base32encode (aliasPayload n1) = base32encode (aliasPayload n2) := hc
  rw [hc2, hd2] at hd1
  exact hpne (Except.ok.inj hd1).symm

/-- Witness for C9 at the concrete distinct ids `2 ^ 63` and
`2 ^ 63 + 1`. -/
theorem newAddressFromNamespace_injective_witness :
    aliasPayload ⟨2 ^ 63⟩ ≠ aliasPayload ⟨2 ^ 63 + 1⟩ ∧
    ∃ a1 a2 : Address,
      NewAddressFromNamespace ⟨2 ^ 63⟩ = some (.ok a1) ∧
      NewAddressFromNamespace ⟨2 ^ 63 + 1⟩ = some (.ok a2) ∧
      a1.Address ≠ a2.Address ∧
      base32decode a1.Address = .ok (aliasPayload ⟨2 ^ 63⟩) ∧
      base32decode a2.Address = .ok (aliasPayload ⟨2 ^ 63 + 1⟩) ∧
      (aliasPayload ⟨2 ^ 63⟩).getD 0 0 = AliasAddress ∧
      (aliasPayload ⟨2 ^ 63 + 1⟩).getD 0 0 = AliasAddress :=
  newAddressFromNamespace_injective ⟨2 ^ 63⟩ ⟨2 ^ 63 + 1⟩
    (by norm_num) (by norm_num) (by norm_num)
